import Mathlib

/-!
# Verification of the contentful-custom-repeater-app field component

Shallow embedding of `src/src/components/Field.tsx`: the repeater app's
data model (`Item`), its option-string parser (`createOptionsArray`), its
configuration defaulting (the destructuring at the top of `Field`), and its
list mutations (`addNewItem`, `createOnChangeHandler`,
`createOnChangeSelectHandler`, `deleteItem`) together with the
`onValueChanged` listener registered in the component's effect.

JavaScript dynamic values that can reach these functions are modelled by
`JSVal`; a thrown `TypeError` (calling `.split` on a non-string) is
modelled by `Except JSError`. The `uuid()` call in `createItem` is
modelled by passing the generated identifier as an explicit argument.
-/

namespace Repeater

/-- An Item which represents a list item of the repeater app
(interface `Item` in Field.tsx: `id`, `key`, `value`, `operator`,
all strings). -/
structure Item where
  id : String
  key : String
  value : String
  operator : String
deriving DecidableEq, Repr

/-- The three record fields the change handlers can address: the TS
`property` argument of type `'key' | 'value' | 'operator'`. -/
inductive Fld where
  | key : Fld
  | value : Fld
  | operator : Fld
deriving DecidableEq, Repr

/-- Reading a field of an `Item`, for stating the handler contracts. -/
def getFld (it : Item) : Fld → String
  | .key => it.key
  | .value => it.value
  | .operator => it.operator

/-- The JS spread `{ ...item, [property]: newVal }` used by both change
handlers: all fields of `item` kept, field `property` set to `newVal`. -/
def setFld (it : Item) : Fld → String → Item
  | .key, v => { it with key := v }
  | .value, v => { it with value := v }
  | .operator, v => { it with operator := v }

/-- A dynamically-typed JavaScript value as it can arrive through
`props.sdk.parameters.instance as any` or through the `onValueChanged`
callback: a string, a boolean, a number, `null`, `undefined`, or an
array (of items, the only array shape the claims concern). -/
inductive JSVal where
  | str : String → JSVal
  | jsBool : Bool → JSVal
  | num : Int → JSVal
  | null : JSVal
  | undef : JSVal
  | arr : List Item → JSVal
deriving DecidableEq, Repr

/-- `Array.isArray(value)`. -/
def isArrayJS : JSVal → Bool
  | .arr _ => true
  | _ => false

/-- A simple utility function to create a 'blank' item (`createItem` in
Field.tsx); the `uuid()` result is the explicit `freshId` argument. -/
def createItem (freshId : String) : Item :=
  { id := freshId, key := "", value := "", operator := "" }

/-- Splitting a character list at every occurrence of `sep`, the
JavaScript `String.prototype.split` semantics for a one-character
separator: the empty list yields one empty token, and each separator
starts a new token (so adjacent separators yield empty tokens). -/
def splitChars (sep : Char) : List Char → List (List Char)
  | [] => [[]]
  | c :: cs =>
      let rest := splitChars sep cs
      if c == sep then [] :: rest
      else
        match rest with
        | [] => [[c]]
        | r :: rs => (c :: r) :: rs

/-- `s.split(sep)` for a one-character separator `sep`. -/
def splitJS (s : String) (sep : Char) : List String :=
  (splitChars sep s.data).map String.mk

/-- `s.trim()`: remove leading and trailing whitespace characters. -/
def trimJS (s : String) : String :=
  String.mk (((s.data.dropWhile Char.isWhitespace).reverse.dropWhile
    Char.isWhitespace).reverse)

/-- `createOptionsArray` from Field.tsx:
`str.split(',').reduce((acc, next) => { if (next?.length) { acc = acc.concat(next.trim()) } return acc; }, [])`.
Note the truthiness test `next?.length` is on the untrimmed token. -/
def createOptionsArray (str : String) : List String :=
  (splitJS str ',').foldl
    (fun acc next => if next.length ≠ 0 then acc ++ [trimJS next] else acc) []

/-- A thrown JavaScript exception; calling `.split(',')` on a value with
no such method (boolean, number, `null`, an array) throws a `TypeError`. -/
inductive JSError where
  | typeError : JSError
deriving DecidableEq, Repr

/-- `createOptionsArray` applied to a dynamically-typed parameter value:
only strings have `.split`, every other value makes the call throw. -/
def createOptionsArrayJS : JSVal → Except JSError (List String)
  | .str s => .ok (createOptionsArray s)
  | _ => .error .typeError

/-- The raw instance parameters object
(`props.sdk.parameters.instance as any`): one dynamic value per
destructured property, `undef` when the property is absent. -/
structure InstanceParams where
  valueName : JSVal
  valueOnly : JSVal
  selectName : JSVal
  selectOptions : JSVal
  valueOptions : JSVal
  operatorOptions : JSVal
  operatorName : JSVal
deriving DecidableEq, Repr

/-- An instance-parameters object with no properties set. -/
def noInstanceParams : InstanceParams :=
  ⟨.undef, .undef, .undef, .undef, .undef, .undef, .undef⟩

/-- A JS destructuring default `lhs = dflt`: the default applies exactly
when the destructured value is `undefined`. -/
def destructureDefault (v dflt : JSVal) : JSVal :=
  match v with
  | .undef => dflt
  | w => w

/-- The configuration the `Field` component computes from its instance
parameters (lines 54-68 of Field.tsx): the destructured scalars plus the
three option lists `selectOpts`, `valueOpts`, `operatorOpts`. -/
structure Configuration where
  valueName : JSVal
  valueOnly : JSVal
  selectName : JSVal
  selectOptions : List String
  valueOptions : List String
  operatorOptions : List String
  operatorName : JSVal
deriving DecidableEq, Repr

/-- The configuration parsing performed by `Field`: destructure each
instance parameter with its default, then build the three option arrays
in source order (`selectOpts`, `valueOpts`, `operatorOpts`); the first
`.split` call on a non-string value throws. -/
def fieldConfig (p : InstanceParams) : Except JSError Configuration :=
  let valueName := destructureDefault p.valueName (.str "Value")
  let valueOnly := destructureDefault p.valueOnly (.jsBool false)
  let selectName := destructureDefault p.selectName (.str "Options")
  let selectOptions := destructureDefault p.selectOptions (.str "includes, excludes")
  let valueOptions := destructureDefault p.valueOptions (.str "")
  let operatorOptions := destructureDefault p.operatorOptions (.str "")
  let operatorName := destructureDefault p.operatorName (.str "Operator")
  match createOptionsArrayJS selectOptions, createOptionsArrayJS valueOptions,
      createOptionsArrayJS operatorOptions with
  | .ok selectOpts, .ok valueOpts, .ok operatorOpts =>
      .ok ⟨valueName, valueOnly, selectName, selectOpts, valueOpts, operatorOpts, operatorName⟩
  | .error e, _, _ => .error e
  | .ok _, .error e, _ => .error e
  | .ok _, .ok _, .error e => .error e

/-- The listener registered with `props.sdk.field.onValueChanged`:
`if (Array.isArray(value)) { setItems(value); }` — an array replaces the
local items wholesale, anything else leaves them unchanged. -/
def onValueChangedListener (items : List Item) : JSVal → List Item
  | .arr l => l
  | _ => items

/-- `addNewItem` from Field.tsx: `setValue([...items, createItem()])`. -/
def addNewItem (items : List Item) (freshId : String) : List Item :=
  items ++ [createItem freshId]

/-- `itemList.findIndex((i) => i.id === item.id)`: index of the first
item with the given id, `-1` when there is none. -/
def findIndexJS (pid : String) : List Item → Int
  | [] => -1
  | i :: rest =>
      if i.id == pid then 0
      else
        let r := findIndexJS pid rest
        if r < 0 then -1 else r + 1

/-- `itemList.splice(start, 1, x)` in value semantics: a negative start
counts from the end (clamped at 0), at most one element is removed at the
actual start, and `x` is inserted there. -/
def spliceOne (L : List Item) (start : Int) (x : Item) : List Item :=
  let len := L.length
  let s : Nat := if start < 0 then (len + start).toNat else min start.toNat len
  let d : Nat := min 1 (len - s)
  L.take s ++ [x] ++ L.drop (s + d)

/-- `createOnChangeSelectHandler` from Field.tsx, applied to the event's
`e.target.value`: copy the items (`items.concat()`, identity in value
semantics), find the index of `item.id`, and splice in
`{ ...item, [property]: newVal }`. -/
def createOnChangeSelectHandler (items : List Item) (item : Item) (property : Fld)
    (newVal : String) : List Item :=
  let itemList := items
  let index := findIndexJS item.id itemList
  spliceOne itemList index (setFld item property newVal)

/-- `createOnChangeHandler` from Field.tsx: identical body to
`createOnChangeSelectHandler` (its TS `property` type is restricted to
`'key' | 'value'`). -/
def createOnChangeHandler (items : List Item) (item : Item) (property : Fld)
    (newVal : String) : List Item :=
  let itemList := items
  let index := findIndexJS item.id itemList
  spliceOne itemList index (setFld item property newVal)

/-- `deleteItem` from Field.tsx:
`setValue(items.filter((i) => i.id !== item.id))`. -/
def deleteItem (items : List Item) (item : Item) : List Item :=
  items.filter (fun i => i.id != item.id)

/-- Whether a dynamic value is a string or `undefined` — the shapes of
option parameters on which the configuration parsing cannot throw. -/
def strOrUndef : JSVal → Bool
  | .str _ => true
  | .undef => true
  | _ => false

instance instDecEqExcept {ε α : Type} [DecidableEq ε] [DecidableEq α] :
    DecidableEq (Except ε α) := fun a b =>
  match a, b with
  | .error e, .error f =>
      if h : e = f then .isTrue (h ▸ rfl)
      else .isFalse fun hc => h (Except.error.inj hc)
  | .ok x, .ok y =>
      if h : x = y then .isTrue (h ▸ rfl)
      else .isFalse fun hc => h (Except.ok.inj hc)
  | .error _, .ok _ => .isFalse fun hc => Except.noConfusion hc
  | .ok _, .error _ => .isFalse fun hc => Except.noConfusion hc

/-! ## Helper lemmas -/

theorem setFld_id (it : Item) (p : Fld) (v : String) : (setFld it p v).id = it.id := by
  cases p <;> rfl

theorem getFld_setFld_same (it : Item) (p : Fld) (v : String) :
    getFld (setFld it p v) p = v := by
  cases p <;> rfl

theorem getFld_setFld_other (it : Item) (p q : Fld) (v : String) (h : q ≠ p) :
    getFld (setFld it p v) q = getFld it q := by
  cases p <;> cases q <;> simp_all [getFld, setFld]

theorem string_eq_empty_of_length (s : String) (h : s.length = 0) : s = "" := by
  apply String.ext
  simpa using List.length_eq_zero.mp h

theorem findIndexJS_of_not_mem (pid : String) (L : List Item)
    (h : pid ∉ L.map Item.id) : findIndexJS pid L = -1 := by
  induction L with
  | nil => rfl
  | cons a t ih =>
      have h1 : a.id ≠ pid := fun e => h (by simp [← e])
      have h2 : pid ∉ t.map Item.id := fun hm => h (by simp [List.mem_map] at hm ⊢; tauto)
      have ha : (a.id == pid) = false := beq_eq_false_iff_ne.mpr h1
      simp [findIndexJS, ha, ih h2]

theorem findIndexJS_nonneg (pid : String) (L : List Item)
    (h : pid ∈ L.map Item.id) : 0 ≤ findIndexJS pid L := by
  induction L with
  | nil => simp at h
  | cons a t ih =>
      simp only [findIndexJS]
      cases hc : a.id == pid
      · have hne : a.id ≠ pid := beq_eq_false_iff_ne.mp hc
        have hm : pid ∈ t.map Item.id := by
          simp only [List.map_cons, List.mem_cons] at h
          rcases h with h | h
          · exact absurd h.symm hne
          · exact h
        have hr := ih hm
        simp only [Bool.false_eq_true, if_false]
        rw [if_neg (by omega)]
        omega
      · simp

theorem spliceOne_zero (a : Item) (t : List Item) (x : Item) :
    spliceOne (a :: t) 0 x = x :: t := by
  simp [spliceOne]

theorem spliceOne_succ (a : Item) (t : List Item) (n : Int) (x : Item) (hn : 0 ≤ n) :
    spliceOne (a :: t) (n + 1) x = a :: spliceOne t n x := by
  simp only [spliceOne, List.length_cons]
  rw [if_neg (by omega : ¬ (n + 1 < 0)), if_neg (by omega : ¬ (n < 0))]
  have h1 : (n + 1).toNat = n.toNat + 1 := by omega
  rw [h1]
  have h2 : min (n.toNat + 1) (t.length + 1) = min n.toNat t.length + 1 := by omega
  rw [h2]
  have h3 : t.length + 1 - (min n.toNat t.length + 1) = t.length - min n.toNat t.length := by
    omega
  rw [h3]
  have h4 : min n.toNat t.length + 1 + min 1 (t.length - min n.toNat t.length)
      = (min n.toNat t.length + min 1 (t.length - min n.toNat t.length)) + 1 := by omega
  rw [h4, List.take_succ_cons, List.drop_succ_cons]
  simp

theorem spliceOne_neg_one (L : List Item) (x : Item) :
    spliceOne L (-1) x = L.dropLast ++ [x] := by
  cases L with
  | nil => simp [spliceOne]
  | cons a t =>
      simp only [spliceOne, List.length_cons]
      rw [if_pos (by omega : (-1 : Int) < 0)]
      have h1 : (((t.length + 1 : Nat) : Int) + (-1)).toNat = t.length := by omega
      rw [h1]
      have h2 : min 1 (t.length + 1 - t.length) = 1 := by omega
      rw [h2]
      rw [List.drop_succ_cons]
      have h3 : t.drop t.length = [] := List.drop_length t
      rw [h3, List.dropLast_eq_take]
      simp

theorem map_update_noop (t : List Item) (pid : String) (x : Item)
    (h : ∀ r ∈ t, r.id ≠ pid) :
    t.map (fun r => if r.id = pid then x else r) = t := by
  induction t with
  | nil => rfl
  | cons a s ih =>
      simp only [List.map_cons]
      rw [if_neg (h a (.head s)), ih (fun r hr => h r (.tail a hr))]

theorem splice_find_eq_map (L : List Item) (pid : String) (x : Item)
    (h1 : (L.map Item.id).Nodup) (h2 : pid ∈ L.map Item.id) :
    spliceOne L (findIndexJS pid L) x
      = L.map fun r => if r.id = pid then x else r := by
  induction L with
  | nil => simp at h2
  | cons a t ih =>
      by_cases ha : a.id = pid
      · have h0 : findIndexJS pid (a :: t) = 0 := by simp [findIndexJS, ha]
        rw [h0, spliceOne_zero]
        have hnot : ∀ r ∈ t, r.id ≠ pid := by
          simp only [List.map_cons, List.nodup_cons] at h1
          intro r hr e
          exact h1.1 (ha ▸ e ▸ List.mem_map_of_mem Item.id hr)
        simp only [List.map_cons, if_pos ha]
        rw [map_update_noop t pid x hnot]
      · have hm : pid ∈ t.map Item.id := by
          simp only [List.map_cons, List.mem_cons] at h2
          rcases h2 with h | h
          · exact absurd h.symm ha
          · exact h
        have hr0 := findIndexJS_nonneg pid t hm
        have hbe : (a.id == pid) = false := beq_eq_false_iff_ne.mpr ha
        have hscc : findIndexJS pid (a :: t) = findIndexJS pid t + 1 := by
          simp only [findIndexJS, hbe, Bool.false_eq_true, if_false]
          rw [if_neg (by omega)]
        rw [hscc, spliceOne_succ a t _ x hr0,
          ih (List.Nodup.of_cons (by simpa using h1)) hm]
        simp only [List.map_cons, if_neg ha]

theorem splice_find_map_id (L : List Item) (pid : String) (x : Item)
    (hx : x.id = pid) (h : pid ∈ L.map Item.id) :
    (spliceOne L (findIndexJS pid L) x).map Item.id = L.map Item.id := by
  induction L with
  | nil => simp at h
  | cons a t ih =>
      by_cases ha : a.id = pid
      · have h0 : findIndexJS pid (a :: t) = 0 := by simp [findIndexJS, ha]
        rw [h0, spliceOne_zero]
        simp [hx, ha]
      · have hm : pid ∈ t.map Item.id := by
          simp only [List.map_cons, List.mem_cons] at h
          rcases h with h | h
          · exact absurd h.symm ha
          · exact h
        have hr0 := findIndexJS_nonneg pid t hm
        have hbe : (a.id == pid) = false := beq_eq_false_iff_ne.mpr ha
        have hscc : findIndexJS pid (a :: t) = findIndexJS pid t + 1 := by
          simp only [findIndexJS, hbe, Bool.false_eq_true, if_false]
          rw [if_neg (by omega)]
        rw [hscc, spliceOne_succ a t _ x hr0]
        simp [ih hm]

theorem length_filter_ne_id (L : List Item) (pid : String) :
    (L.filter (fun i => i.id != pid)).length
      = L.length - L.countP (fun i => i.id == pid) := by
  induction L with
  | nil => rfl
  | cons a t ih =>
      have hle := List.countP_le_length (p := fun i => i.id == pid) (l := t)
      rw [List.filter_cons, List.countP_cons]
      by_cases ha : a.id = pid
      · have h1 : (a.id != pid) = false := by simp [ha]
        have h2 : (a.id == pid) = true := by simp [ha]
        simp only [h1, h2, Bool.false_eq_true, if_false, if_true, List.length_cons, ih]
        omega
      · have h1 : (a.id != pid) = true := bne_iff_ne.mpr ha
        have h2 : (a.id == pid) = false := beq_eq_false_iff_ne.mpr ha
        simp only [h1, h2, Bool.false_eq_true, if_false, if_true, List.length_cons, ih]
        omega

theorem count_map_id (L : List Item) (pid : String) :
    (L.map Item.id).count pid = L.countP (fun i => i.id == pid) := by
  induction L with
  | nil => rfl
  | cons a t ih => simp [List.count_cons, List.countP_cons, ih]

theorem foldl_createOptions (l : List String) (acc : List String) :
    l.foldl (fun acc next => if next.length ≠ 0 then acc ++ [trimJS next] else acc) acc
      = acc ++ (l.filter (fun t => t != "")).map trimJS := by
  induction l generalizing acc with
  | nil => simp
  | cons a t ih =>
      simp only [List.foldl_cons, List.filter_cons]
      by_cases ha : a = ""
      · subst ha
        rw [if_neg (by decide : ¬ (("" : String).length ≠ 0)), ih]
        simp
      · have hlen : a.length ≠ 0 := fun h0 => ha (string_eq_empty_of_length a h0)
        rw [if_pos hlen, ih]
        have hb : (a != "") = true := bne_iff_ne.mpr ha
        simp [hb]

theorem createOptionsArrayJS_destructure_ok (v : JSVal) (d : String)
    (h : strOrUndef v = true) :
    ∃ l, createOptionsArrayJS (destructureDefault v (.str d)) = .ok l := by
  cases v <;> simp_all [strOrUndef, destructureDefault, createOptionsArrayJS]

/-! ## Claim theorems -/

/-- C1 counterexample: with the one-record list `[⟨"a","k","v","o"⟩]` and an
edit addressed to the absent identifier `"b"`, the change handler is not a
no-op: `findIndex` returns `-1` and `splice(-1, 1, x)` replaces the last
record, so the submitted list differs from the original. -/
theorem c1_counterexample :
    (⟨"b", "", "", ""⟩ : Item).id ∉ ([⟨"a", "k", "v", "o"⟩] : List Item).map Item.id ∧
    createOnChangeSelectHandler [⟨"a", "k", "v", "o"⟩] ⟨"b", "", "", ""⟩ Fld.value "x"
      ≠ [⟨"a", "k", "v", "o"⟩] := by
  decide

/-- C1 (amended): for an identifier not present in the list, both change
handlers replace the last record of the list with the edited copy of the
given record (inserting it into an empty list); only `deleteItem` with an
absent identifier is a no-op. -/
theorem c1_absent_id_edit (L : List Item) (item : Item) (property : Fld) (newVal : String)
    (h : item.id ∉ L.map Item.id) :
    createOnChangeSelectHandler L item property newVal
      = L.dropLast ++ [setFld item property newVal] ∧
    createOnChangeHandler L item property newVal
      = L.dropLast ++ [setFld item property newVal] ∧
    deleteItem L item = L := by
  have hidx : findIndexJS item.id L = -1 := findIndexJS_of_not_mem item.id L h
  have hmain : spliceOne L (findIndexJS item.id L) (setFld item property newVal)
      = L.dropLast ++ [setFld item property newVal] := by
    rw [hidx, spliceOne_neg_one]
  refine ⟨hmain, hmain, ?_⟩
  apply List.filter_eq_self.mpr
  intro a ha
  exact bne_iff_ne.mpr (fun e => h (e ▸ List.mem_map_of_mem Item.id ha))

/-- C1 witness: the amended statement evaluated at the concrete
counterexample input. -/
theorem c1_absent_id_edit_witness :
    createOnChangeSelectHandler [⟨"a", "k", "v", "o"⟩] ⟨"b", "", "", ""⟩ Fld.value "x"
      = ([⟨"a", "k", "v", "o"⟩] : List Item).dropLast
          ++ [setFld ⟨"b", "", "", ""⟩ Fld.value "x"] :=
  (c1_absent_id_edit [⟨"a", "k", "v", "o"⟩] ⟨"b", "", "", ""⟩ Fld.value "x" (by decide)).1

/-- C2 counterexample: the whitespace-only token `" "` is nonempty before
trimming, so it survives the filter and appears in the result as the empty
string — contradicting the claim that tokens empty after trimming are
discarded. -/
theorem c2_counterexample :
    createOptionsArray " " = [""] ∧ ("" : String) ∈ createOptionsArray " " := by
  decide

/-- C2 (amended): the options parser splits on `,`, discards tokens that
are empty before trimming, and trims the surviving tokens (order and
duplicates preserved); a token that is nonempty but all whitespace appears
in the result as `""`. The spec's three examples hold as stated. -/
theorem c2_options_split (s : String) :
    createOptionsArray s = ((splitJS s ',').filter (fun t => t != "")).map trimJS ∧
    createOptionsArray "includes, excludes" = ["includes", "excludes"] ∧
    createOptionsArray "" = [] ∧
    createOptionsArray "a,, b" = ["a", "b"] := by
  refine ⟨?_, by decide, by decide, by decide⟩
  unfold createOptionsArray
  simpa using foldl_createOptions (splitJS s ',') []

/-- C3 counterexample: `selectOptions` present with value `""` keeps `""`
(a JS destructuring default fires only on `undefined`), so the resulting
select options are `[]`, not the claimed default
`["includes", "excludes"]`. -/
theorem c3_counterexample :
    fieldConfig { noInstanceParams with selectOptions := JSVal.str "" }
      = Except.ok ⟨.str "Value", .jsBool false, .str "Options", [], [], [], .str "Operator"⟩ ∧
    fieldConfig { noInstanceParams with selectOptions := JSVal.str "" }
      ≠ Except.ok ⟨.str "Value", .jsBool false, .str "Options",
          ["includes", "excludes"], [], [], .str "Operator"⟩ := by
  decide

/-- C3 (amended): configuration defaults apply exactly to missing or
`undefined` entries — any defined value, falsy or not, is kept, so
`selectOptions = ""` yields `[]`; with no instance parameters at all the
resulting configuration equals the documented default record. -/
theorem c3_defaults :
    (∀ v d, v ≠ JSVal.undef → destructureDefault v d = v) ∧
    fieldConfig noInstanceParams
      = Except.ok ⟨.str "Value", .jsBool false, .str "Options",
          ["includes", "excludes"], [], [], .str "Operator"⟩ ∧
    fieldConfig { noInstanceParams with selectOptions := JSVal.str "" }
      = Except.ok ⟨.str "Value", .jsBool false, .str "Options", [], [], [], .str "Operator"⟩ := by
  refine ⟨?_, by decide, by decide⟩
  intro v d hv
  cases v <;> simp_all [destructureDefault]

/-- C3 witness: a defined falsy value is kept rather than defaulted. -/
theorem c3_defaults_witness :
    destructureDefault (JSVal.str "") (JSVal.str "includes, excludes") = JSVal.str "" :=
  c3_defaults.1 (JSVal.str "") (JSVal.str "includes, excludes") (by decide)

/-- C4 counterexample: a `null` value for `selectOptions` is not defaulted
(it is not `undefined`) and has no `.split` method, so the configuration
parsing throws a `TypeError` — contradicting the claim that it never
raises on non-string values. -/
theorem c4_counterexample :
    fieldConfig { noInstanceParams with selectOptions := JSVal.null }
      = Except.error JSError.typeError := by
  decide

/-- C4 (amended): the configuration parsing is total whenever each of the
three comma-separated option parameters is a string or absent/undefined;
non-string defined values (null, booleans, numbers) make it throw. -/
theorem c4_total_on_strings (p : InstanceParams)
    (h1 : strOrUndef p.selectOptions = true)
    (h2 : strOrUndef p.valueOptions = true)
    (h3 : strOrUndef p.operatorOptions = true) :
    ∃ c, fieldConfig p = Except.ok c := by
  obtain ⟨l1, e1⟩ := createOptionsArrayJS_destructure_ok p.selectOptions "includes, excludes" h1
  obtain ⟨l2, e2⟩ := createOptionsArrayJS_destructure_ok p.valueOptions "" h2
  obtain ⟨l3, e3⟩ := createOptionsArrayJS_destructure_ok p.operatorOptions "" h3
  refine ⟨⟨destructureDefault p.valueName (.str "Value"),
      destructureDefault p.valueOnly (.jsBool false),
      destructureDefault p.selectName (.str "Options"),
      l1, l2, l3,
      destructureDefault p.operatorName (.str "Operator")⟩, ?_⟩
  simp only [fieldConfig]
  rw [e1, e2, e3]

/-- C4 witness: totality at the all-absent parameter object. -/
theorem c4_total_on_strings_witness :
    ∃ c, fieldConfig noInstanceParams = Except.ok c :=
  c4_total_on_strings noInstanceParams (by decide) (by decide) (by decide)

/-- C5: appending yields a list one longer whose prefix is the original
list unchanged and whose last element is a blank record (all text fields
empty) carrying the freshly generated identifier, which — assuming the
uuid is fresh — is not present in the original list. -/
theorem c5_append (L : List Item) (freshId : String) (h : freshId ∉ L.map Item.id) :
    (addNewItem L freshId).length = L.length + 1 ∧
    (addNewItem L freshId).take L.length = L ∧
    (addNewItem L freshId).getLast? = some (createItem freshId) ∧
    (createItem freshId).key = "" ∧
    (createItem freshId).value = "" ∧
    (createItem freshId).operator = "" ∧
    (createItem freshId).id ∉ L.map Item.id := by
  refine ⟨by simp [addNewItem], ?_, ?_, rfl, rfl, rfl, h⟩
  · exact List.take_left L [createItem freshId]
  · exact List.getLast?_concat L

/-- C5 witness: the append contract evaluated at a concrete list and a
fresh identifier. -/
theorem c5_append_witness :
    (addNewItem [⟨"a", "k", "v", "o"⟩] "b").length
      = ([⟨"a", "k", "v", "o"⟩] : List Item).length + 1 :=
  (c5_append [⟨"a", "k", "v", "o"⟩] "b" (by decide)).1

/-- C6: editing a field of a record whose identifier is present (under the
RecordList invariant that identifiers are pairwise distinct) updates
exactly that record in place — same length, order preserved, the addressed
field set to the new value, its identifier and all other fields unchanged,
and every other record untouched; both change handlers agree. -/
theorem c6_edit_present (L : List Item) (item : Item) (property : Fld) (newVal : String)
    (h1 : (L.map Item.id).Nodup) (h2 : item ∈ L) :
    (createOnChangeSelectHandler L item property newVal).length = L.length ∧
    createOnChangeSelectHandler L item property newVal
      = L.map (fun r => if r.id = item.id then setFld item property newVal else r) ∧
    createOnChangeHandler L item property newVal
      = L.map (fun r => if r.id = item.id then setFld item property newVal else r) ∧
    getFld (setFld item property newVal) property = newVal ∧
    (setFld item property newVal).id = item.id ∧
    (∀ g, g ≠ property → getFld (setFld item property newVal) g = getFld item g) := by
  have hmem : item.id ∈ L.map Item.id := List.mem_map_of_mem Item.id h2
  have hmap : spliceOne L (findIndexJS item.id L) (setFld item property newVal)
      = L.map (fun r => if r.id = item.id then setFld item property newVal else r) :=
    splice_find_eq_map L item.id (setFld item property newVal) h1 hmem
  refine ⟨?_, hmap, hmap, getFld_setFld_same item property newVal,
    setFld_id item property newVal,
    fun g hg => getFld_setFld_other item property g newVal hg⟩
  show (spliceOne L (findIndexJS item.id L) (setFld item property newVal)).length = L.length
  rw [hmap, List.length_map]

/-- C6 witness: the edit contract evaluated on a concrete two-record
list, editing the second record's value field. -/
theorem c6_edit_present_witness :
    createOnChangeSelectHandler [⟨"a", "k", "v", "o"⟩, ⟨"b", "1", "2", "3"⟩]
        ⟨"b", "1", "2", "3"⟩ Fld.value "x"
      = ([⟨"a", "k", "v", "o"⟩, ⟨"b", "1", "2", "3"⟩] : List Item).map
          (fun r => if r.id = (⟨"b", "1", "2", "3"⟩ : Item).id
            then setFld ⟨"b", "1", "2", "3"⟩ Fld.value "x" else r) :=
  (c6_edit_present [⟨"a", "k", "v", "o"⟩, ⟨"b", "1", "2", "3"⟩]
    ⟨"b", "1", "2", "3"⟩ Fld.value "x" (by decide) (by decide)).2.1

/-- C7: deleting an identifier that occurs exactly once removes exactly
that record (length decreases by one, no remaining record carries the
identifier, relative order of the rest preserved — a sublist), and
deleting an absent identifier returns the list unchanged. -/
theorem c7_delete (L : List Item) (item : Item) :
    ((L.map Item.id).count item.id = 1 →
      (deleteItem L item).length = L.length - 1 ∧
      (∀ r ∈ deleteItem L item, r.id ≠ item.id) ∧
      (deleteItem L item).Sublist L) ∧
    (item.id ∉ L.map Item.id → deleteItem L item = L) := by
  constructor
  · intro h1
    refine ⟨?_, ?_, List.filter_sublist L⟩
    · show (L.filter (fun i => i.id != item.id)).length = L.length - 1
      rw [length_filter_ne_id, ← count_map_id, h1]
    · intro r hr
      have hm : r ∈ L.filter (fun i => i.id != item.id) := hr
      exact bne_iff_ne.mp (List.mem_filter.mp hm).2
  · intro h2
    apply List.filter_eq_self.mpr
    intro a ha
    exact bne_iff_ne.mpr (fun e => h2 (e ▸ List.mem_map_of_mem Item.id ha))

/-- C7 witness: delete at a present-once identifier shrinks the list by
one; delete at an absent identifier is the identity. -/
theorem c7_delete_witness :
    (deleteItem [⟨"a", "k", "v", "o"⟩, ⟨"b", "1", "2", "3"⟩] ⟨"a", "k", "v", "o"⟩).length
      = ([⟨"a", "k", "v", "o"⟩, ⟨"b", "1", "2", "3"⟩] : List Item).length - 1 ∧
    deleteItem [⟨"a", "k", "v", "o"⟩] ⟨"b", "", "", ""⟩ = [⟨"a", "k", "v", "o"⟩] :=
  ⟨((c7_delete [⟨"a", "k", "v", "o"⟩, ⟨"b", "1", "2", "3"⟩] ⟨"a", "k", "v", "o"⟩).1
      (by decide)).1,
   (c7_delete [⟨"a", "k", "v", "o"⟩] ⟨"b", "", "", ""⟩).2 (by decide)⟩

/-- C8: the value-changed listener replaces local state wholesale with any
array-shaped host value, and leaves local state exactly unchanged on any
non-array value. -/
theorem c8_value_changed (S : List Item) :
    (∀ l, onValueChangedListener S (JSVal.arr l) = l) ∧
    (∀ v, isArrayJS v = false → onValueChangedListener S v = S) := by
  refine ⟨fun l => rfl, fun v hv => ?_⟩
  cases v <;> first | rfl | simp_all [isArrayJS]

/-- C8 witness: a non-array host value (a string) leaves a concrete local
state unchanged. -/
theorem c8_value_changed_witness :
    onValueChangedListener [⟨"a", "k", "v", "o"⟩] (JSVal.str "x") = [⟨"a", "k", "v", "o"⟩] :=
  (c8_value_changed [⟨"a", "k", "v", "o"⟩]).2 (JSVal.str "x") (by decide)

/-- C9: pairwise distinctness of identifiers is preserved by every
mutation — append with a fresh identifier, field edit addressed to a
present identifier, and delete. -/
theorem c9_nodup_invariant (L : List Item) (item : Item) (property : Fld)
    (newVal freshId : String) :
    ((L.map Item.id).Nodup → freshId ∉ L.map Item.id →
      ((addNewItem L freshId).map Item.id).Nodup) ∧
    ((L.map Item.id).Nodup → item.id ∈ L.map Item.id →
      ((createOnChangeSelectHandler L item property newVal).map Item.id).Nodup) ∧
    ((L.map Item.id).Nodup → ((deleteItem L item).map Item.id).Nodup) := by
  refine ⟨fun h1 h2 => ?_, fun h1 h2 => ?_, fun h1 => ?_⟩
  · simp only [addNewItem, List.map_append, List.map_cons, List.map_nil]
    rw [List.nodup_append]
    refine ⟨h1, List.nodup_singleton _, ?_⟩
    intro a ha hb
    simp only [List.mem_singleton] at hb
    subst hb
    exact h2 ha
  · have hpres := splice_find_map_id L item.id (setFld item property newVal)
      (setFld_id item property newVal) h2
    show ((spliceOne L (findIndexJS item.id L) (setFld item property newVal)).map Item.id).Nodup
    rw [hpres]
    exact h1
  · exact List.Nodup.sublist ((List.filter_sublist L).map Item.id) h1

/-- C9 witness: the append case of the invariant at a concrete list and
fresh identifier. -/
theorem c9_nodup_invariant_witness :
    ((addNewItem [⟨"a", "k", "v", "o"⟩] "b").map Item.id).Nodup :=
  (c9_nodup_invariant [⟨"a", "k", "v", "o"⟩] ⟨"a", "k", "v", "o"⟩ Fld.value "x" "b").1
    (by decide) (by decide)

/-- C10: delete keeps exactly the records whose identifier differs from
the given one — it is the filter by that predicate, and its length drops
by the full multiplicity of the identifier in the list (so a duplicate
identifier, which the host listener never rules out, is removed at every
occurrence by a single delete). -/
theorem c10_delete_all_occurrences (L : List Item) (item : Item) :
    deleteItem L item = L.filter (fun r => decide (r.id ≠ item.id)) ∧
    (deleteItem L item).length = L.length - (L.map Item.id).count item.id := by
  constructor
  · show L.filter (fun i => i.id != item.id) = _
    apply List.filter_congr
    intro a _
    by_cases h : a.id = item.id <;> simp [h]
  · show (L.filter (fun i => i.id != item.id)).length = _
    rw [length_filter_ne_id, count_map_id]

end Repeater
